import Mathlib

/-!
Verification of the sparse-set ECS library (`src/pool.js`, `src/ecs.js`).

`Pool` is a sparse-set map from entity ids to component values, backed by
a sparse typed array (indexed by entity id) and two dense arrays
(`entities` and `components`) of length `capacity`, of which the first
`size` slots are live.  Typed arrays are embedded as `List Nat` whose
stored values are reduced modulo `maxTyped + 1` on write, where
`maxTyped` is the largest value the chosen `UintXXArray` can hold (the
constructor guarantees `maxEntity ≤ maxTyped`).  JavaScript `null` is
embedded as `none : Option C`, so a component slot is `Option C`; the
`undefined` returned by a failed `get` is the outer `none` of
`Option (Option C)`.
-/

deriving instance DecidableEq for Except

namespace SparseSetECS

/-- List read with a default, as a JS indexed read that is in bounds under
the well-formedness assumptions used by every theorem below. -/
theorem getD_set_self {α : Type} (l : List α) (i : Nat) (a d : α)
    (h : i < l.length) : (l.set i a).getD i d = a := by
  induction l generalizing i with
  | nil => simp at h
  | cons x xs ih =>
    cases i with
    | zero => rfl
    | succ j => exact ih j (Nat.lt_of_succ_lt_succ h)

theorem getD_set_of_ne {α : Type} (l : List α) (i j : Nat) (a d : α)
    (h : i ≠ j) : (l.set i a).getD j d = l.getD j d := by
  induction l generalizing i j with
  | nil => simp [List.set]
  | cons x xs ih =>
    cases i with
    | zero =>
      cases j with
      | zero => exact absurd rfl h
      | succ _ => rfl
    | succ i' =>
      cases j with
      | zero => rfl
      | succ j' => exact ih i' j' (fun he => h (by rw [he]))

theorem getD_replicate {α : Type} (n i : Nat) (x d : α) (h : i < n) :
    (List.replicate n x).getD i d = x := by
  induction n generalizing i with
  | zero => simp at h
  | succ m ih =>
    cases i with
    | zero => rfl
    | succ j => exact ih j (Nat.lt_of_succ_lt_succ h)

theorem getD_eq_of_lt_length {α : Type} (l : List α) (i : Nat) (d : α)
    (h : i < l.length) : l.getD i d = l.get ⟨i, h⟩ := by
  induction l generalizing i with
  | nil => simp at h
  | cons x xs ih =>
    cases i with
    | zero => rfl
    | succ j => exact ih j (Nat.lt_of_succ_lt_succ h)

/-- Embedding of `Pool` from `src/pool.js`.  The private fields become
structure fields; `maxTyped` records the largest storable value of the
`UintXXArray` backing `sparse` and `entities`. -/
structure Pool (C : Type) where
  sparse : List Nat
  entities : List Nat
  components : List (Option C)
  size : Nat
  capacity : Nat
  maxEntity : Nat
  maxTyped : Nat
deriving DecidableEq

/-- The freshly constructed pool: `sparse` has `maximumEntity + 1` zeroed
slots, the dense arrays have `capacity` slots, `components` filled with
`null`, and `size = 0` (the constructor body after validation). -/
def Pool.init (C : Type) (cap me mt : Nat) : Pool C :=
  { sparse := List.replicate (me + 1) 0
    entities := List.replicate cap 0
    components := List.replicate cap none
    size := 0
    capacity := cap
    maxEntity := me
    maxTyped := mt }

/-- Embedding of `Pool.has` on an argument already known to be a natural number.
The JS body first returns false when `entity > maxEntity`; otherwise it
reads `i = sparse[entity]` (in bounds, hence an integer, so the
`Number.isInteger(i)` conjunct is true) and tests
`i < size && entities[i] === entity`. -/
def Pool.hasNat {C : Type} (p : Pool C) (e : Nat) : Bool :=
  if p.maxEntity < e then false
  else
    let i := p.sparse.getD e 0
    decide (i < p.size) && decide (p.entities.getD i 0 = e)

/-- Embedding of `Pool.isEmpty`: `size === 0`. -/
def Pool.isEmpty {C : Type} (p : Pool C) : Bool := p.size == 0

/-- The sequence produced by `pool.keys()`: the first `size` slots of the
dense `entities` array, in dense order. -/
def Pool.keysList {C : Type} (p : Pool C) : List Nat := p.entities.take p.size

/-- Embedding of `Pool.get` on a natural-number argument.  The JS body returns
`undefined` (the outer `none`) when validation fails or the entity is
absent, and the stored component slot otherwise. -/
def Pool.getNat {C : Type} (p : Pool C) (e : Nat) : Option (Option C) :=
  if p.maxEntity < e then none
  else
    let i := p.sparse.getD e 0
    if i < p.size ∧ p.entities.getD i 0 = e then some (p.components.getD i none)
    else none

/-- Embedding of `Pool.add` after `#assert` has passed (`e` is an integer in
`[0, maxEntity]`).  Returns the new pool and the boolean result.  Writes
into the typed arrays are reduced modulo `maxTyped + 1`. -/
def Pool.addCore {C : Type} (p : Pool C) (e : Nat) (v : Option C) :
    Pool C × Bool :=
  if p.capacity ≤ p.size then (p, false)
  else
    let i := p.sparse.getD e 0
    if i < p.size ∧ p.entities.getD i 0 = e then
      ({ p with components := p.components.set i v }, true)
    else
      ({ p with
          entities := p.entities.set p.size (e % (p.maxTyped + 1))
          components := p.components.set p.size v
          sparse := p.sparse.set e (p.size % (p.maxTyped + 1))
          size := p.size + 1 }, true)

/-- Embedding of `Pool.delete` after `#assert` has passed.  Returns the new pool and
the boolean result.  The vacated trailing component slot is cleared to
`null` after the swap, exactly as in the JS body. -/
def Pool.deleteCore {C : Type} (p : Pool C) (e : Nat) : Pool C × Bool :=
  if p.hasNat e = false then (p, false)
  else
    let index := p.sparse.getD e 0
    let lastEntity := p.entities.getD (p.size - 1) 0
    let lastComponent := p.components.getD (p.size - 1) none
    ({ p with
        entities := p.entities.set index (lastEntity % (p.maxTyped + 1))
        components := (p.components.set index lastComponent).set (p.size - 1) none
        sparse := p.sparse.set lastEntity (index % (p.maxTyped + 1))
        size := p.size - 1 }, true)

/-- Classification of a JavaScript value passed as an entity argument:
an integer number; a non-integer value that compares greater than
`maxEntity` (for example the number `maxEntity + 0.5`); any other
non-integer value whose comparison with `maxEntity` evaluates without
throwing (a smaller fraction, `NaN`, a string, an ordinary object); or a
value whose numeric coercion itself throws, so that the relational
comparison `entity > maxEntity` raises a `TypeError` (a `Symbol`, a
null-prototype object, an object with a throwing `valueOf`).  For a
non-integer value that does compare, an indexed read `sparse[entity]`
yields `undefined`, which fails the `Number.isInteger` test in `has`;
`Number.isInteger` itself never coerces and so never throws. -/
inductive EntityArg where
  | int (n : Int)
  | nonIntGt
  | nonIntLe
  | nonIntThrow
deriving DecidableEq

/-- Whether the relational comparison `value > maxEntity` evaluates to a
boolean rather than throwing: false exactly for the arguments whose
numeric coercion throws. -/
def EntityArg.comparesOk : EntityArg → Bool
  | .nonIntThrow => false
  | _ => true

/-- The test performed by `Pool.#assert` (and by the explicit validation
in `Pool.get`): `Number.isInteger(value) && value >= 0 && value <= maxEntity`.
`Number.isInteger` does not coerce, so this test is false (never a
throw) even for a `Symbol`-like argument. -/
def Pool.argValid {C : Type} (p : Pool C) (a : EntityArg) : Bool :=
  match a with
  | .int n => decide (0 ≤ n) && decide (n ≤ (p.maxEntity : Int))
  | _ => false

/-- Embedding of `Pool.has` on an arbitrary argument.  The first
statement is the comparison `entity > this.#maxEntity`, which throws a
`TypeError` (the `error` case) when the argument's numeric coercion
throws.  Otherwise: a non-integer comparing greater than `maxEntity`
takes the early false return; any other non-integer reads `undefined`
from `sparse` and fails `Number.isInteger`; a negative integer likewise
reads `undefined`. -/
def Pool.hasArg {C : Type} (p : Pool C) (a : EntityArg) : Except Unit Bool :=
  match a with
  | .int n =>
      if (p.maxEntity : Int) < n then .ok false
      else if n < 0 then .ok false
      else .ok (p.hasNat n.toNat)
  | .nonIntGt => .ok false
  | .nonIntLe => .ok false
  | .nonIntThrow => .error ()

/-- Embedding of `Pool.get` on an arbitrary argument: explicit validation, then the
sparse lookup. -/
def Pool.getArg {C : Type} (p : Pool C) (a : EntityArg) : Option (Option C) :=
  match a with
  | .int n => if 0 ≤ n ∧ n ≤ (p.maxEntity : Int) then p.getNat n.toNat else none
  | _ => none

/-- Embedding of `Pool.add` on an arbitrary argument: `#assert` throws a `TypeError`
(the `error` case) on an invalid argument, before any state change. -/
def Pool.addArg {C : Type} (p : Pool C) (a : EntityArg) (v : Option C) :
    Except Unit (Pool C × Bool) :=
  match a with
  | .int n =>
      if 0 ≤ n ∧ n ≤ (p.maxEntity : Int) then .ok (p.addCore n.toNat v)
      else .error ()
  | _ => .error ()

/-- Embedding of `Pool.delete` on an arbitrary argument: `#assert` throws on an
invalid argument, before any state change. -/
def Pool.deleteArg {C : Type} (p : Pool C) (a : EntityArg) :
    Except Unit (Pool C × Bool) :=
  match a with
  | .int n =>
      if 0 ≤ n ∧ n ≤ (p.maxEntity : Int) then .ok (p.deleteCore n.toNat)
      else .error ()
  | _ => .error ()

/-- Well-formedness plus the sparse-set invariant of a pool:
array lengths as allocated by the constructor, `size ≤ capacity`,
`maxEntity ≤ maxTyped` (checked by the constructor), sparse/dense
consistency on the live prefix, and live entity values in range. -/
def Pool.Inv {C : Type} (p : Pool C) : Prop :=
  p.sparse.length = p.maxEntity + 1 ∧
  p.entities.length = p.capacity ∧
  p.components.length = p.capacity ∧
  p.size ≤ p.capacity ∧
  p.maxEntity ≤ p.maxTyped ∧
  (∀ i, i < p.size → p.sparse.getD (p.entities.getD i 0) 0 = i) ∧
  (∀ i, i < p.size → p.entities.getD i 0 ≤ p.maxEntity)

theorem init_inv (C : Type) (cap me mt : Nat) (h : me ≤ mt) :
    (Pool.init C cap me mt).Inv := by
  refine ⟨by simp [Pool.init], by simp [Pool.init], by simp [Pool.init],
    Nat.zero_le _, h, ?_, ?_⟩ <;> intro i hi <;> simp [Pool.init] at hi

theorem hasNat_eq_true_iff {C : Type} (p : Pool C) (e : Nat) :
    p.hasNat e = true ↔
      e ≤ p.maxEntity ∧ p.sparse.getD e 0 < p.size ∧
        p.entities.getD (p.sparse.getD e 0) 0 = e := by
  unfold Pool.hasNat
  split
  · next h => simp [Nat.lt_iff_add_one_le] at h ⊢; omega
  · next h =>
    simp only [Bool.and_eq_true, decide_eq_true_eq]
    constructor
    · rintro ⟨h1, h2⟩; exact ⟨Nat.le_of_not_lt h, h1, h2⟩
    · rintro ⟨_, h1, h2⟩; exact ⟨h1, h2⟩

theorem inv_inj {C : Type} {p : Pool C} (hp : p.Inv) {i j : Nat}
    (hi : i < p.size) (hj : j < p.size)
    (hij : p.entities.getD i 0 = p.entities.getD j 0) : i = j := by
  obtain ⟨_, _, _, _, _, hinv, _⟩ := hp
  have h1 := hinv i hi
  have h2 := hinv j hj
  rw [hij] at h1
  omega

theorem mem_take_iff_getD (l : List Nat) (n e : Nat) :
    e ∈ l.take n ↔ ∃ i, i < n ∧ i < l.length ∧ l.getD i 0 = e := by
  induction l generalizing n with
  | nil => simp
  | cons x xs ih =>
    cases n with
    | zero => simp
    | succ m =>
      simp only [List.take_succ_cons, List.mem_cons, ih]
      constructor
      · rintro (rfl | ⟨i, h1, h2, h3⟩)
        · exact ⟨0, Nat.succ_pos _, Nat.succ_pos _, rfl⟩
        · exact ⟨i + 1, Nat.succ_lt_succ h1, Nat.succ_lt_succ h2, h3⟩
      · rintro ⟨i, h1, h2, h3⟩
        cases i with
        | zero => exact Or.inl h3.symm
        | succ j =>
          exact Or.inr ⟨j, Nat.lt_of_succ_lt_succ h1, Nat.lt_of_succ_lt_succ h2, h3⟩

theorem mem_keysList_iff {C : Type} {p : Pool C} (hp : p.Inv) (e : Nat) :
    e ∈ p.keysList ↔ p.hasNat e = true := by
  obtain ⟨hs, he, hc, hsz, hmt, hinv, hb⟩ := hp
  rw [Pool.keysList, mem_take_iff_getD, hasNat_eq_true_iff]
  constructor
  · rintro ⟨i, h1, _, h3⟩
    have hse : p.sparse.getD e 0 = i := by rw [← h3]; exact hinv i h1
    exact ⟨h3 ▸ hb i h1, hse ▸ h1, by rw [hse]; exact h3⟩
  · rintro ⟨h1, h2, h3⟩
    exact ⟨p.sparse.getD e 0, h2, lt_of_lt_of_le h2 (he ▸ hsz), h3⟩

theorem keysList_length {C : Type} {p : Pool C} (hp : p.Inv) :
    p.keysList.length = p.size := by
  obtain ⟨_, he, _, hsz, _, _, _⟩ := hp
  rw [Pool.keysList, List.length_take]
  omega

theorem getD_take {α : Type} (l : List α) (n i : Nat) (d : α) (h : i < n) :
    (l.take n).getD i d = l.getD i d := by
  induction l generalizing n i with
  | nil => simp
  | cons x xs ih =>
    cases n with
    | zero => simp at h
    | succ m =>
      cases i with
      | zero => rfl
      | succ j => exact ih m j (Nat.lt_of_succ_lt_succ h)

theorem nodup_of_getD_inj (l : List Nat)
    (h : ∀ i j, i < l.length → j < l.length → l.getD i 0 = l.getD j 0 → i = j) :
    l.Nodup := by
  rw [List.nodup_iff_injective_get]
  rintro ⟨i, hi⟩ ⟨j, hj⟩ hij
  have hd : l.getD i 0 = l.getD j 0 := by
    rw [getD_eq_of_lt_length _ _ _ hi, getD_eq_of_lt_length _ _ _ hj]
    exact hij
  exact Fin.ext (h i j hi hj hd)

theorem keysList_nodup {C : Type} {p : Pool C} (hp : p.Inv) :
    p.keysList.Nodup := by
  have hlen : p.keysList.length = p.size := keysList_length hp
  apply nodup_of_getD_inj
  intro i j hi hj hij
  rw [hlen] at hi hj
  rw [Pool.keysList, getD_take _ _ _ _ hi, getD_take _ _ _ _ hj] at hij
  exact inv_inj hp hi hj hij

theorem pigeonhole_nodup (l : List Nat) (m : Nat) (hnd : l.Nodup)
    (hb : ∀ x ∈ l, x < m) : l.length ≤ m := by
  have h1 : l.toFinset.card = l.length := List.toFinset_card_of_nodup hnd
  have h2 : l.toFinset ⊆ Finset.range m := by
    intro x hx
    exact Finset.mem_range.mpr (hb x (List.mem_toFinset.mp hx))
  calc l.length = l.toFinset.card := h1.symm
    _ ≤ (Finset.range m).card := Finset.card_le_card h2
    _ = m := Finset.card_range m

theorem size_le_maxEntity_succ {C : Type} {p : Pool C} (hp : p.Inv) :
    p.size ≤ p.maxEntity + 1 := by
  have h2 : ∀ x ∈ p.keysList, x < p.maxEntity + 1 := by
    intro x hx
    have := ((hasNat_eq_true_iff p x).mp ((mem_keysList_iff hp x).mp hx)).1
    omega
  calc p.size = p.keysList.length := (keysList_length hp).symm
    _ ≤ p.maxEntity + 1 := pigeonhole_nodup _ _ (keysList_nodup hp) h2

theorem fresh_size_le_maxEntity {C : Type} {p : Pool C} (hp : p.Inv) (e : Nat)
    (hle : e ≤ p.maxEntity) (hfresh : p.hasNat e = false) :
    p.size ≤ p.maxEntity := by
  have hmem : e ∉ p.keysList := by
    rw [mem_keysList_iff hp]
    simp [hfresh]
  have hnd : (e :: p.keysList).Nodup := List.nodup_cons.mpr ⟨hmem, keysList_nodup hp⟩
  have hb : ∀ x ∈ e :: p.keysList, x < p.maxEntity + 1 := by
    intro x hx
    rcases List.mem_cons.mp hx with rfl | hx'
    · omega
    · have := ((hasNat_eq_true_iff p x).mp ((mem_keysList_iff hp x).mp hx')).1
      omega
  have := pigeonhole_nodup _ _ hnd hb
  simp only [List.length_cons, keysList_length hp] at this
  omega

theorem addCore_cond_iff {C : Type} (p : Pool C) (e : Nat) (hle : e ≤ p.maxEntity) :
    (p.sparse.getD e 0 < p.size ∧ p.entities.getD (p.sparse.getD e 0) 0 = e) ↔
      p.hasNat e = true := by
  rw [hasNat_eq_true_iff]
  exact ⟨fun h => ⟨hle, h⟩, fun h => h.2⟩

theorem addCore_full {C : Type} (p : Pool C) (e : Nat) (v : Option C)
    (hcap : p.capacity ≤ p.size) : p.addCore e v = (p, false) := by
  unfold Pool.addCore
  rw [if_pos hcap]

theorem addCore_overwrite {C : Type} (p : Pool C) (e : Nat) (v : Option C)
    (hle : e ≤ p.maxEntity) (hcap : p.size < p.capacity) (hhas : p.hasNat e = true) :
    p.addCore e v =
      ({ p with components := p.components.set (p.sparse.getD e 0) v }, true) := by
  have hcond := (addCore_cond_iff p e hle).mpr hhas
  unfold Pool.addCore
  rw [if_neg (by omega)]
  simp only []
  rw [if_pos hcond]

theorem addCore_append {C : Type} {p : Pool C} (hp : p.Inv) (e : Nat) (v : Option C)
    (hle : e ≤ p.maxEntity) (hcap : p.size < p.capacity) (hhas : p.hasNat e = false) :
    p.addCore e v =
      ({ p with
          entities := p.entities.set p.size e
          components := p.components.set p.size v
          sparse := p.sparse.set e p.size
          size := p.size + 1 }, true) := by
  have hmt : p.maxEntity ≤ p.maxTyped := hp.2.2.2.2.1
  have hcond : ¬(p.sparse.getD e 0 < p.size ∧
      p.entities.getD (p.sparse.getD e 0) 0 = e) := by
    rw [addCore_cond_iff p e hle]
    simp [hhas]
  have hsme : p.size ≤ p.maxEntity := fresh_size_le_maxEntity hp e hle hhas
  have h1 : e % (p.maxTyped + 1) = e := Nat.mod_eq_of_lt (by omega)
  have h2 : p.size % (p.maxTyped + 1) = p.size := Nat.mod_eq_of_lt (by omega)
  unfold Pool.addCore
  rw [if_neg (by omega)]
  simp only []
  rw [if_neg hcond, h1, h2]

theorem deleteCore_absent {C : Type} (p : Pool C) (e : Nat)
    (hhas : p.hasNat e = false) : p.deleteCore e = (p, false) := by
  unfold Pool.deleteCore
  rw [if_pos hhas]

theorem deleteCore_present {C : Type} {p : Pool C} (hp : p.Inv) (e : Nat)
    (hhas : p.hasNat e = true) :
    p.deleteCore e =
      ({ p with
          entities := p.entities.set (p.sparse.getD e 0) (p.entities.getD (p.size - 1) 0)
          components := (p.components.set (p.sparse.getD e 0)
            (p.components.getD (p.size - 1) none)).set (p.size - 1) none
          sparse := p.sparse.set (p.entities.getD (p.size - 1) 0) (p.sparse.getD e 0)
          size := p.size - 1 }, true) := by
  obtain ⟨hle, hidx, hei⟩ := (hasNat_eq_true_iff p e).mp hhas
  have hmt : p.maxEntity ≤ p.maxTyped := hp.2.2.2.2.1
  have hsme : p.size ≤ p.maxEntity + 1 := size_le_maxEntity_succ hp
  have hlast : p.entities.getD (p.size - 1) 0 ≤ p.maxEntity :=
    hp.2.2.2.2.2.2 (p.size - 1) (by omega)
  have h1 : p.entities.getD (p.size - 1) 0 % (p.maxTyped + 1) =
      p.entities.getD (p.size - 1) 0 := Nat.mod_eq_of_lt (by omega)
  have h2 : p.sparse.getD e 0 % (p.maxTyped + 1) = p.sparse.getD e 0 :=
    Nat.mod_eq_of_lt (by omega)
  unfold Pool.deleteCore
  rw [if_neg (by simp [hhas])]
  simp only []
  rw [h1, h2]

theorem addCore_inv {C : Type} {p : Pool C} (hp : p.Inv) (e : Nat) (v : Option C)
    (hle : e ≤ p.maxEntity) : ((p.addCore e v).1).Inv := by
  have hcopy := hp
  obtain ⟨hs, he, hc, hsz, hmt, hinv, hb⟩ := hcopy
  by_cases hcap : p.capacity ≤ p.size
  · rw [addCore_full p e v hcap]
    exact hp
  · by_cases hhas : p.hasNat e = true
    · rw [addCore_overwrite p e v hle (by omega) hhas]
      exact ⟨hs, he, by simpa using hc, hsz, hmt, hinv, hb⟩
    · rw [addCore_append hp e v hle (by omega) (by simpa using hhas)]
      refine ⟨by simpa using hs, by simpa using he, by simpa using hc,
        by simp; omega, hmt, ?_, ?_⟩
      · intro j hj
        replace hj : j < p.size + 1 := hj
        simp only []
        by_cases hjs : j = p.size
        · subst hjs
          rw [getD_set_self _ _ _ _ (by omega)]
          rw [getD_set_self _ _ _ _ (by omega)]
        · have hj' : j < p.size := by omega
          rw [getD_set_of_ne _ _ _ _ _ (fun hh => hjs hh.symm)]
          have hxe : p.entities.getD j 0 ≠ e := by
            intro hxe
            apply hjs
            have h1 := hinv j hj'
            rw [hxe] at h1
            have h2 : p.hasNat e = true := by
              rw [hasNat_eq_true_iff]
              exact ⟨hle, h1 ▸ hj', by rw [h1, ← hxe]⟩
            simp [h2] at hhas
          rw [getD_set_of_ne _ _ _ _ _ (fun hh => hxe hh.symm)]
          exact hinv j hj'
      · intro j hj
        replace hj : j < p.size + 1 := hj
        simp only []
        by_cases hjs : j = p.size
        · subst hjs
          rw [getD_set_self _ _ _ _ (by omega)]
          exact hle
        · rw [getD_set_of_ne _ _ _ _ _ (fun hh => hjs hh.symm)]
          exact hb j (by omega)

theorem deleteCore_inv {C : Type} {p : Pool C} (hp : p.Inv) (e : Nat) :
    ((p.deleteCore e).1).Inv := by
  have hcopy := hp
  obtain ⟨hs, he, hc, hsz, hmt, hinv, hb⟩ := hcopy
  by_cases hhas : p.hasNat e = true
  · rw [deleteCore_present hp e hhas]
    obtain ⟨hle, hidx, hei⟩ := (hasNat_eq_true_iff p e).mp hhas
    have hlast : p.entities.getD (p.size - 1) 0 ≤ p.maxEntity :=
      hb (p.size - 1) (by omega)
    refine ⟨by simpa using hs, by simpa using he, by simpa using hc,
      by simp; omega, hmt, ?_, ?_⟩
    · intro j hj
      replace hj : j < p.size - 1 := hj
      simp only []
      by_cases hji : j = p.sparse.getD e 0
      · subst hji
        rw [getD_set_self _ _ _ _ (by omega)]
        rw [getD_set_self _ _ _ _ (by omega)]
      · rw [getD_set_of_ne _ _ _ _ _ (fun hh => hji hh.symm)]
        have hxl : p.entities.getD j 0 ≠ p.entities.getD (p.size - 1) 0 := by
          intro hxl
          have := inv_inj hp (by omega) (by omega) hxl
          omega
        rw [getD_set_of_ne _ _ _ _ _ (fun hh => hxl hh.symm)]
        exact hinv j (by omega)
    · intro j hj
      replace hj : j < p.size - 1 := hj
      simp only []
      by_cases hji : j = p.sparse.getD e 0
      · subst hji
        rw [getD_set_self _ _ _ _ (by omega)]
        exact hlast
      · rw [getD_set_of_ne _ _ _ _ _ (fun hh => hji hh.symm)]
        exact hb j (by omega)
  · rw [deleteCore_absent p e (by simpa using hhas)]
    exact hp

theorem bool_eq_of_iff {a b : Bool} (h : (a = true) ↔ (b = true)) : a = b := by
  cases a <;> cases b <;> simp_all

theorem getNat_of_has {C : Type} (p : Pool C) (e : Nat)
    (hhas : p.hasNat e = true) :
    p.getNat e = some (p.components.getD (p.sparse.getD e 0) none) := by
  obtain ⟨hle, hidx, hei⟩ := (hasNat_eq_true_iff p e).mp hhas
  unfold Pool.getNat
  rw [if_neg (by omega)]
  simp only []
  rw [if_pos ⟨hidx, hei⟩]

theorem getNat_of_not_has {C : Type} (p : Pool C) (e : Nat)
    (hhas : p.hasNat e = false) : p.getNat e = none := by
  unfold Pool.getNat
  split
  · rfl
  · next h =>
    simp only []
    rw [if_neg]
    intro hcond
    have : p.hasNat e = true := (hasNat_eq_true_iff p e).mpr ⟨by omega, hcond⟩
    simp [this] at hhas

theorem deleteCore_hasNat_self {C : Type} {p : Pool C} (hp : p.Inv) (e : Nat) :
    ((p.deleteCore e).1).hasNat e = false := by
  by_cases hhas : p.hasNat e = true
  · have hcopy := hp
    obtain ⟨hs, he, hc, hsz, hmt, hinv, hb⟩ := hcopy
    obtain ⟨hle, hidx, hei⟩ := (hasNat_eq_true_iff p e).mp hhas
    rw [deleteCore_present hp e hhas]
    rw [Bool.eq_false_iff]
    intro hq
    rw [hasNat_eq_true_iff] at hq
    obtain ⟨hle', hlt, heq⟩ := hq
    simp only [] at hle' hlt heq
    by_cases hele : e = p.entities.getD (p.size - 1) 0
    · have hidxlast : p.sparse.getD e 0 = p.size - 1 :=
        inv_inj hp hidx (by omega) (by rw [hei, hele])
      rw [← hele, getD_set_self _ _ _ _ (by omega), hidxlast] at hlt
      omega
    · rw [getD_set_of_ne _ _ _ _ _ (fun hh => hele hh.symm)] at hlt heq
      rw [getD_set_self _ _ _ _ (by omega)] at heq
      exact hele heq.symm
  · rw [deleteCore_absent p e (by simpa using hhas)]
    simpa using hhas

theorem deleteCore_hasNat_other {C : Type} {p : Pool C} (hp : p.Inv)
    (e e' : Nat) (hne : e' ≠ e) :
    ((p.deleteCore e).1).hasNat e' = p.hasNat e' := by
  by_cases hhas : p.hasNat e = true
  · have hcopy := hp
    obtain ⟨hs, he, hc, hsz, hmt, hinv, hb⟩ := hcopy
    obtain ⟨hle, hidx, hei⟩ := (hasNat_eq_true_iff p e).mp hhas
    have hsle : p.sparse.getD (p.entities.getD (p.size - 1) 0) 0 = p.size - 1 :=
      hinv (p.size - 1) (by omega)
    have hlastme : p.entities.getD (p.size - 1) 0 ≤ p.maxEntity :=
      hb (p.size - 1) (by omega)
    rw [deleteCore_present hp e hhas]
    apply bool_eq_of_iff
    rw [hasNat_eq_true_iff, hasNat_eq_true_iff]
    simp only []
    by_cases he'le : e' = p.entities.getD (p.size - 1) 0
    · subst he'le
      have hidxne : p.sparse.getD e 0 ≠ p.size - 1 := by
        intro hh
        apply hne
        rw [← hei, hh]
      rw [getD_set_self _ _ _ _ (by omega)]
      rw [getD_set_self _ _ _ _ (by omega)]
      constructor
      · rintro ⟨h1, _, _⟩
        refine ⟨h1, ?_, ?_⟩
        · rw [hsle]; omega
        · rw [hsle]
      · rintro ⟨h1, _, _⟩
        exact ⟨h1, by omega, rfl⟩
    · rw [getD_set_of_ne _ _ _ _ _ (fun hh => he'le hh.symm)]
      constructor
      · rintro ⟨h1, h2, h3⟩
        by_cases hi' : p.sparse.getD e' 0 = p.sparse.getD e 0
        · rw [hi', getD_set_self _ _ _ _ (by omega)] at h3
          exact absurd h3.symm he'le
        · rw [getD_set_of_ne _ _ _ _ _ (fun hh => hi' hh.symm)] at h3
          exact ⟨h1, by omega, h3⟩
      · rintro ⟨h1, h2, h3⟩
        have hi'ne : p.sparse.getD e' 0 ≠ p.sparse.getD e 0 := by
          intro hh
          apply hne
          rw [← h3, hh, hei]
        have hi'nelast : p.sparse.getD e' 0 ≠ p.size - 1 := by
          intro hh
          apply he'le
          rw [← h3, hh]
        refine ⟨h1, by omega, ?_⟩
        rw [getD_set_of_ne _ _ _ _ _ (fun hh => hi'ne hh.symm)]
        exact h3
  · rw [deleteCore_absent p e (by simpa using hhas)]

theorem deleteCore_getNat_other {C : Type} {p : Pool C} (hp : p.Inv)
    (e e' : Nat) (hne : e' ≠ e) (hhas' : p.hasNat e' = true) :
    ((p.deleteCore e).1).getNat e' = p.getNat e' := by
  by_cases hhas : p.hasNat e = true
  · have hcopy := hp
    obtain ⟨hs, he, hc, hsz, hmt, hinv, hb⟩ := hcopy
    obtain ⟨hle, hidx, hei⟩ := (hasNat_eq_true_iff p e).mp hhas
    obtain ⟨hle', hidx', hei'⟩ := (hasNat_eq_true_iff p e').mp hhas'
    have hqhas : ((p.deleteCore e).1).hasNat e' = true := by
      rw [deleteCore_hasNat_other hp e e' hne]
      exact hhas'
    rw [getNat_of_has _ _ hqhas, getNat_of_has _ _ hhas']
    rw [deleteCore_present hp e hhas]
    simp only []
    have hsle : p.sparse.getD (p.entities.getD (p.size - 1) 0) 0 = p.size - 1 :=
      hinv (p.size - 1) (by omega)
    have hlastme : p.entities.getD (p.size - 1) 0 ≤ p.maxEntity :=
      hb (p.size - 1) (by omega)
    by_cases he'le : e' = p.entities.getD (p.size - 1) 0
    · have hidxne : p.sparse.getD e 0 ≠ p.size - 1 := by
        intro hh
        have he2 : e = p.entities.getD (p.size - 1) 0 := by rw [← hei, hh]
        exact hne (by rw [he'le, ← he2])
      rw [he'le]
      rw [getD_set_self _ _ _ _ (by omega)]
      rw [getD_set_of_ne _ _ _ _ _ (fun hh => hidxne hh.symm)]
      rw [getD_set_self _ _ _ _ (by omega)]
      rw [hsle]
    · have hi'ne : p.sparse.getD e' 0 ≠ p.sparse.getD e 0 := by
        intro hh
        apply hne
        rw [← hei', hh, hei]
      have hi'nelast : p.sparse.getD e' 0 ≠ p.size - 1 := by
        intro hh
        apply he'le
        rw [← hei', hh]
      rw [getD_set_of_ne _ _ _ _ _ (fun hh => he'le hh.symm)]
      rw [getD_set_of_ne _ _ _ _ _ (fun hh => hi'nelast hh.symm)]
      rw [getD_set_of_ne _ _ _ _ _ (fun hh => hi'ne hh.symm)]
  · rw [deleteCore_absent p e (by simpa using hhas)]

theorem deleteCore_size {C : Type} {p : Pool C} (hp : p.Inv) (e : Nat)
    (hhas : p.hasNat e = true) :
    ((p.deleteCore e).1).size + 1 = p.size := by
  obtain ⟨hle, hidx, hei⟩ := (hasNat_eq_true_iff p e).mp hhas
  rw [deleteCore_present hp e hhas]
  simp only []
  omega

/-- A call of `add` or `delete` on a pool.  An argument that fails
`#assert` throws before any mutation, so such a call leaves the state
unchanged; `applyOp` therefore only mutates for a valid entity. -/
inductive PoolOp (C : Type) where
  | add (e : Nat) (v : Option C)
  | del (e : Nat)

def Pool.applyOp {C : Type} (p : Pool C) : PoolOp C → Pool C
  | .add e v => if e ≤ p.maxEntity then (p.addCore e v).1 else p
  | .del e => if e ≤ p.maxEntity then (p.deleteCore e).1 else p

/-- The pool state after a sequence of `add`/`delete` calls. -/
def Pool.runOps {C : Type} (p : Pool C) (ops : List (PoolOp C)) : Pool C :=
  ops.foldl Pool.applyOp p

instance poolInvDecidable {C : Type} (p : Pool C) : Decidable p.Inv := by
  unfold Pool.Inv
  infer_instance

theorem applyOp_inv {C : Type} {p : Pool C} (hp : p.Inv) (op : PoolOp C) :
    (p.applyOp op).Inv := by
  cases op with
  | add e v =>
    show (if e ≤ p.maxEntity then (p.addCore e v).1 else p).Inv
    split
    · next h => exact addCore_inv hp e v h
    · exact hp
  | del e =>
    show (if e ≤ p.maxEntity then (p.deleteCore e).1 else p).Inv
    split
    · exact deleteCore_inv hp e
    · exact hp

theorem runOps_inv {C : Type} {p : Pool C} (hp : p.Inv) (ops : List (PoolOp C)) :
    (p.runOps ops).Inv := by
  induction ops generalizing p with
  | nil => exact hp
  | cons op ops ih => exact ih (applyOp_inv hp op)

/-- The two conjuncts claimed to hold of every reachable pool state:
sparse/dense consistency on the live prefix, and `size ≤ capacity`. -/
def SparseDenseOk {C : Type} (p : Pool C) : Prop :=
  (∀ i, i < p.size → p.sparse.getD (p.entities.getD i 0) 0 = i) ∧
  p.size ≤ p.capacity

/-- C3: for every pool state reachable from a freshly constructed pool by
any sequence of `add` and `delete` calls, every dense index `i < size`
satisfies `sparse[entities[i]] == i`, and `size ≤ capacity`.  The
hypothesis `me ≤ mt` is the constructor validation that `maximumEntity`
fits in the chosen typed array. -/
theorem c3_reachable_sparse_dense (C : Type) (cap me mt : Nat) (h : me ≤ mt)
    (ops : List (PoolOp C)) : SparseDenseOk ((Pool.init C cap me mt).runOps ops) := by
  have hinv := runOps_inv (init_inv C cap me mt h) ops
  exact ⟨hinv.2.2.2.2.2.1, hinv.2.2.2.1⟩

theorem c3_reachable_sparse_dense_witness :
    3 ≤ 3 ∧ SparseDenseOk ((Pool.init Nat 2 3 3).runOps
      [PoolOp.add 1 (some 5), PoolOp.add 2 (some 6), PoolOp.del 1]) :=
  ⟨by decide, c3_reachable_sparse_dense Nat 2 3 3 (by decide)
    [PoolOp.add 1 (some 5), PoolOp.add 2 (some 6), PoolOp.del 1]⟩

/-- The behaviour of `add(e, v)` on a valid entity, by cases.  Unlike the
spec sentence, the full-pool early return fires whether or not `e` is
already present. -/
def AddSpec {C : Type} (p : Pool C) (e : Nat) (v : Option C) : Prop :=
  (p.capacity ≤ p.size → p.addCore e v = (p, false)) ∧
  (p.size < p.capacity → p.hasNat e = true →
    p.addCore e v =
      ({ p with components := p.components.set (p.sparse.getD e 0) v }, true)) ∧
  (p.size < p.capacity → p.hasNat e = false →
    p.addCore e v =
      ({ p with
          entities := p.entities.set p.size e
          components := p.components.set p.size v
          sparse := p.sparse.set e p.size
          size := p.size + 1 }, true))

/-- C1 counterexample: a pool of capacity 1 already holding entity 0 at
full size.  The claim says `add(0, w)` overwrites in place and returns
true even at capacity; the code returns false and changes nothing,
because the `size >= capacity` early return precedes the membership
check. -/
theorem c1_counterexample :
    (((Pool.init Nat 1 1 3).addCore 0 (some 10)).1).hasNat 0 = true ∧
    (((Pool.init Nat 1 1 3).addCore 0 (some 10)).1).size =
      (((Pool.init Nat 1 1 3).addCore 0 (some 10)).1).capacity ∧
    (((Pool.init Nat 1 1 3).addCore 0 (some 10)).1).addCore 0 (some 20) =
      ((((Pool.init Nat 1 1 3).addCore 0 (some 10)).1), false) := by
  decide

/-- C1 (amended): for every invariant-satisfying pool and valid entity
`e`, `add(e, v)` returns false and changes nothing whenever
`size ≥ capacity`, even when `e` is already present; when
`size < capacity` and `e` is present it overwrites the component in
place and returns true without changing size; when `size < capacity`
and `e` is new it appends at dense index `size` (setting
`entities[size]=e`, `components[size]=v`, `sparse[e]=size`), increments
size, and returns true. -/
theorem c1_add_spec {C : Type} (p : Pool C) (e : Nat) (v : Option C)
    (hp : p.Inv) (hle : e ≤ p.maxEntity) : AddSpec p e v :=
  ⟨fun h => addCore_full p e v h,
   fun h1 h2 => addCore_overwrite p e v hle h1 h2,
   fun h1 h2 => addCore_append hp e v hle h1 h2⟩

theorem c1_add_spec_witness :
    (Pool.init Nat 2 3 3).Inv ∧ 1 ≤ (Pool.init Nat 2 3 3).maxEntity ∧
      AddSpec (Pool.init Nat 2 3 3) 1 (some 5) :=
  ⟨by decide, by decide, c1_add_spec (Pool.init Nat 2 3 3) 1 (some 5) (by decide) (by decide)⟩

/-- The behaviour of `delete(e)` on a valid entity, by cases, exactly as
the spec describes it: absent entity leaves the whole state untouched;
a present entity is removed by moving the last live pair into its slot,
redirecting the sparse entry of the moved entity, decrementing size, and
clearing the vacated trailing component slot to null. -/
def DeleteSpec {C : Type} (p : Pool C) (e : Nat) : Prop :=
  (p.hasNat e = false → p.deleteCore e = (p, false)) ∧
  (p.hasNat e = true →
    p.deleteCore e =
      ({ p with
          entities := p.entities.set (p.sparse.getD e 0) (p.entities.getD (p.size - 1) 0)
          components := (p.components.set (p.sparse.getD e 0)
            (p.components.getD (p.size - 1) none)).set (p.size - 1) none
          sparse := p.sparse.set (p.entities.getD (p.size - 1) 0) (p.sparse.getD e 0)
          size := p.size - 1 }, true))

/-- C4: the call `delete(e)` on a valid entity returns false and leaves the pool
unchanged when `e` is absent, and otherwise performs exactly the
swap-with-last removal described by the spec, decrements size, clears the
vacated trailing component slot to null, and returns true. -/
theorem c4_delete_spec {C : Type} (p : Pool C) (e : Nat)
    (hp : p.Inv) (_hle : e ≤ p.maxEntity) : DeleteSpec p e :=
  ⟨fun h => deleteCore_absent p e h,
   fun h => deleteCore_present hp e h⟩

theorem c4_delete_spec_witness :
    ((((Pool.init Nat 3 3 3).addCore 1 (some 5)).1.addCore 2 (some 6)).1).Inv ∧
    1 ≤ ((((Pool.init Nat 3 3 3).addCore 1 (some 5)).1.addCore 2 (some 6)).1).maxEntity ∧
    DeleteSpec (((Pool.init Nat 3 3 3).addCore 1 (some 5)).1.addCore 2 (some 6)).1 1 :=
  ⟨by decide, by decide,
   c4_delete_spec (((Pool.init Nat 3 3 3).addCore 1 (some 5)).1.addCore 2 (some 6)).1 1
     (by decide) (by decide)⟩

/-- Frame conditions of a successful deletion: only the membership of the
deleted entity changes. -/
def DeleteFrameSpec {C : Type} (p : Pool C) (e : Nat) : Prop :=
  p.hasNat e = true →
    ((p.deleteCore e).1).size + 1 = p.size ∧
    ((p.deleteCore e).1).hasNat e = false ∧
    (∀ e', e' ≠ e → ((p.deleteCore e).1).hasNat e' = p.hasNat e') ∧
    (∀ e', e' ≠ e → p.hasNat e' = true →
      ((p.deleteCore e).1).getNat e' = p.getNat e')

/-- C9: on an invariant-satisfying pool, a successful `delete(e)` changes
only the membership of `e`: every other entity keeps its membership
status and (when present) its component value, and size decreases by
exactly one. -/
theorem c9_delete_frame {C : Type} (p : Pool C) (e : Nat) (hp : p.Inv) :
    DeleteFrameSpec p e :=
  fun hhas =>
    ⟨deleteCore_size hp e hhas,
     deleteCore_hasNat_self hp e,
     fun e' hne => deleteCore_hasNat_other hp e e' hne,
     fun e' hne hhas' => deleteCore_getNat_other hp e e' hne hhas'⟩

theorem c9_delete_frame_witness :
    ((((Pool.init Nat 3 3 3).addCore 1 (some 5)).1.addCore 2 (some 6)).1).Inv ∧
    DeleteFrameSpec (((Pool.init Nat 3 3 3).addCore 1 (some 5)).1.addCore 2 (some 6)).1 1 :=
  ⟨by decide,
   c9_delete_frame (((Pool.init Nat 3 3 3).addCore 1 (some 5)).1.addCore 2 (some 6)).1 1
     (by decide)⟩

theorem invalid_hasArg_ok {C : Type} (p : Pool C) (a : EntityArg)
    (h : p.argValid a = false) (hc : a.comparesOk = true) :
    p.hasArg a = Except.ok false := by
  cases a with
  | int n =>
    simp only [Pool.argValid, Bool.and_eq_false_iff, decide_eq_false_iff_not] at h
    show (if (p.maxEntity : Int) < n then Except.ok false
      else if n < 0 then Except.ok false
      else Except.ok (p.hasNat n.toNat)) = Except.ok false
    split
    · rfl
    · split
      · rfl
      · next h1 h2 =>
        exfalso
        rcases h with h | h
        · omega
        · omega
  | nonIntGt => rfl
  | nonIntLe => rfl
  | nonIntThrow => simp [EntityArg.comparesOk] at hc

theorem hasArg_of_not_comparesOk {C : Type} (p : Pool C) (a : EntityArg)
    (hc : a.comparesOk = false) : p.hasArg a = Except.error () := by
  cases a with
  | int n => simp [EntityArg.comparesOk] at hc
  | nonIntGt => simp [EntityArg.comparesOk] at hc
  | nonIntLe => simp [EntityArg.comparesOk] at hc
  | nonIntThrow => rfl

theorem invalid_getArg {C : Type} (p : Pool C) (a : EntityArg)
    (h : p.argValid a = false) : p.getArg a = none := by
  cases a with
  | int n =>
    simp only [Pool.argValid, Bool.and_eq_false_iff, decide_eq_false_iff_not] at h
    show (if 0 ≤ n ∧ n ≤ (p.maxEntity : Int) then p.getNat n.toNat else none) = none
    rw [if_neg]
    rintro ⟨h1, h2⟩
    rcases h with h | h <;> omega
  | nonIntGt => rfl
  | nonIntLe => rfl
  | nonIntThrow => rfl

theorem invalid_addArg {C : Type} (p : Pool C) (a : EntityArg) (v : Option C)
    (h : p.argValid a = false) : p.addArg a v = Except.error () := by
  cases a with
  | int n =>
    simp only [Pool.argValid, Bool.and_eq_false_iff, decide_eq_false_iff_not] at h
    show (if 0 ≤ n ∧ n ≤ (p.maxEntity : Int) then Except.ok (p.addCore n.toNat v)
      else Except.error ()) = Except.error ()
    rw [if_neg]
    rintro ⟨h1, h2⟩
    rcases h with h | h <;> omega
  | nonIntGt => rfl
  | nonIntLe => rfl
  | nonIntThrow => rfl

theorem invalid_deleteArg {C : Type} (p : Pool C) (a : EntityArg)
    (h : p.argValid a = false) : p.deleteArg a = Except.error () := by
  cases a with
  | int n =>
    simp only [Pool.argValid, Bool.and_eq_false_iff, decide_eq_false_iff_not] at h
    show (if 0 ≤ n ∧ n ≤ (p.maxEntity : Int) then Except.ok (p.deleteCore n.toNat)
      else Except.error ()) = Except.error ()
    rw [if_neg]
    rintro ⟨h1, h2⟩
    rcases h with h | h <;> omega
  | nonIntGt => rfl
  | nonIntLe => rfl
  | nonIntThrow => rfl

/-- Behaviour of the four entity-taking pool operations on an argument
failing validation: `add` and `delete` raise (the `error` case, with no
successor state, since `#assert` runs before any mutation); `get` never
raises and returns `undefined`; `has` returns the normal result false
when the comparison with `maxEntity` evaluates, and itself raises a
`TypeError` at that comparison when the argument is one whose numeric
coercion throws. -/
def InvalidArgSpec {C : Type} (p : Pool C) (a : EntityArg) (v : Option C) : Prop :=
  p.addArg a v = Except.error () ∧
  p.deleteArg a = Except.error () ∧
  (a.comparesOk = true → p.hasArg a = Except.ok false) ∧
  (a.comparesOk = false → p.hasArg a = Except.error ()) ∧
  p.getArg a = none

/-- C7 counterexample: with `maxEntity = 1`, the out-of-range argument 5
makes `has` return the normal result false and `get` return `undefined`;
neither call raises the invalid-entity error the claim requires of every
entity-taking pool operation. -/
theorem c7_counterexample :
    (Pool.init Nat 2 1 3).argValid (EntityArg.int 5) = false ∧
    (Pool.init Nat 2 1 3).hasArg (EntityArg.int 5) = Except.ok false ∧
    (Pool.init Nat 2 1 3).getArg (EntityArg.int 5) = none := by
  decide

/-- C7 (amended): for every pool and every entity argument that fails
validation, `add` and `delete` raise the invalid-entity `TypeError`
synchronously before any state change; `get` does not raise but returns
the normal result `undefined` with no state change; `has` does not raise
the invalid-entity error either — it returns the normal result false —
except that for an argument whose numeric coercion throws (a `Symbol`
or similar) the comparison `entity > maxEntity` inside `has` itself
raises a `TypeError`. -/
theorem c7_invalid_arg (C : Type) (p : Pool C) (a : EntityArg) (v : Option C)
    (h : p.argValid a = false) : InvalidArgSpec p a v :=
  ⟨invalid_addArg p a v h, invalid_deleteArg p a h,
   fun hc => invalid_hasArg_ok p a h hc,
   fun hc => hasArg_of_not_comparesOk p a hc,
   invalid_getArg p a h⟩

theorem c7_invalid_arg_witness :
    (Pool.init Nat 2 1 3).argValid (EntityArg.int (-1)) = false ∧
    InvalidArgSpec (Pool.init Nat 2 1 3) (EntityArg.int (-1)) (some 9) :=
  ⟨by decide, c7_invalid_arg Nat (Pool.init Nat 2 1 3) (EntityArg.int (-1)) (some 9) (by decide)⟩

/-- Behaviour of `has`, `get`, `add`, `delete` on an invalid argument,
split by whether the relational comparison with `maxEntity` evaluates:
`get` is total; `has` is total exactly on the comparable arguments and
throws on the rest; `add` and `delete` raise for all of them. -/
def LookupTotalSpec {C : Type} (p : Pool C) (a : EntityArg) (v : Option C) : Prop :=
  p.getArg a = none ∧
  (a.comparesOk = true → p.hasArg a = Except.ok false) ∧
  (a.comparesOk = false → p.hasArg a = Except.error ()) ∧
  p.addArg a v = Except.error () ∧
  p.deleteArg a = Except.error ()

/-- C10 counterexample: a `Symbol`-like argument (one whose numeric
coercion throws) fails validation, yet `has` does not return false — the
comparison `entity > this.#maxEntity` throws a `TypeError`, contradicting
the claim that `has` returns false and never throws for every
non-numeric argument.  `get` still returns `undefined` because
`Number.isInteger` does not coerce. -/
theorem c10_counterexample :
    (Pool.init Nat 2 1 3).argValid EntityArg.nonIntThrow = false ∧
    (Pool.init Nat 2 1 3).hasArg EntityArg.nonIntThrow = Except.error () ∧
    (Pool.init Nat 2 1 3).getArg EntityArg.nonIntThrow = none := by
  decide

/-- C10 (amended): for every pool and every argument that is not an
integer in `[0, maxEntity]`, `get` returns `undefined` without throwing
and without touching pool state; `has` returns false without throwing
for every such argument whose comparison with `maxEntity` evaluates
(negative, fractional, above `maxEntity`, strings, `NaN`, ordinary
objects), but throws a `TypeError` for an argument whose numeric
coercion throws (a `Symbol`, a null-prototype object); `add` and
`delete` raise for all of these arguments. -/
theorem c10_lookup_total (C : Type) (p : Pool C) (a : EntityArg) (v : Option C)
    (h : p.argValid a = false) : LookupTotalSpec p a v :=
  ⟨invalid_getArg p a h,
   fun hc => invalid_hasArg_ok p a h hc,
   fun hc => hasArg_of_not_comparesOk p a hc,
   invalid_addArg p a v h, invalid_deleteArg p a h⟩

theorem c10_lookup_total_witness :
    (Pool.init Nat 2 1 3).argValid EntityArg.nonIntLe = false ∧
    (Pool.init Nat 2 1 3).argValid (EntityArg.int 5) = false ∧
    (Pool.init Nat 2 1 3).argValid EntityArg.nonIntThrow = false ∧
    LookupTotalSpec (Pool.init Nat 2 1 3) EntityArg.nonIntLe (some 4) ∧
    LookupTotalSpec (Pool.init Nat 2 1 3) (EntityArg.int 5) (some 4) ∧
    LookupTotalSpec (Pool.init Nat 2 1 3) EntityArg.nonIntThrow (some 4) :=
  ⟨by decide, by decide, by decide,
   c10_lookup_total Nat (Pool.init Nat 2 1 3) EntityArg.nonIntLe (some 4) (by decide),
   c10_lookup_total Nat (Pool.init Nat 2 1 3) (EntityArg.int 5) (some 4) (by decide),
   c10_lookup_total Nat (Pool.init Nat 2 1 3) EntityArg.nonIntThrow (some 4) (by decide)⟩

/-!  World embedding from `src/ecs.js`.  Component types are an abstract
type `Ty` with decidable (reference) equality; the `#pools` JS `Map` is an
insertion-ordered association list, the `#entities` JS `Set` an
insertion-ordered duplicate-free list, and `#recycledEntities` a JS array
used as a stack (push and pop at the end). -/

structure World (Ty C : Type) where
  entities : List Nat
  recycledEntities : List Nat
  pools : List (Ty × Pool C)
  nextId : Nat
  capacity : Nat
deriving DecidableEq

/-- The `World` constructor. -/
def World.init (Ty C : Type) (cap : Nat) : World Ty C :=
  { entities := [], recycledEntities := [], pools := [], nextId := 0, capacity := cap }

/-- Embedding of `this.#pools.get(type)`. -/
def lookupPool {Ty C : Type} [DecidableEq Ty] (w : World Ty C) (t : Ty) :
    Option (Pool C) :=
  (w.pools.find? (fun tp => decide (tp.1 = t))).map (fun tp => tp.2)

/-- Embedding of `Set.prototype.add`: appends unless already present (iteration order
of a JS `Set` is insertion order). -/
def setAdd (l : List Nat) (e : Nat) : List Nat := if e ∈ l then l else l ++ [e]

/-- Embedding of `World.spawn`: pop a recycled id if any (array `pop` takes the last
element), otherwise hand out `nextId`, throwing (`none`) when the world
is full.  Returns the mutated world and the id wrapped by the returned
`Entity` object. -/
def World.spawn {Ty C : Type} (w : World Ty C) : Option (World Ty C × Nat) :=
  match w.recycledEntities.getLast? with
  | some e => some ({ w with recycledEntities := w.recycledEntities.dropLast,
                             entities := setAdd w.entities e }, e)
  | none =>
      if w.capacity ≤ w.nextId then none
      else some ({ w with nextId := w.nextId + 1,
                          entities := setAdd w.entities w.nextId }, w.nextId)

/-- Embedding of `World.destroy`: false for a non-live entity; otherwise delete the
entity from every pool, remove it from the live set, and push it onto the
recycle stack.  `pool.delete` is entered through `#assert`, which passes
because a live entity is an integer below `capacity` and every pool is
built with `maxEntity = capacity - 1`. -/
def World.destroy {Ty C : Type} (w : World Ty C) (e : Nat) : World Ty C × Bool :=
  if e ∈ w.entities then
    ({ w with
        pools := w.pools.map (fun tp => (tp.1, (tp.2.deleteCore e).1))
        entities := w.entities.erase e
        recycledEntities := w.recycledEntities ++ [e] }, true)
  else (w, false)

/-- Embedding of `World.register`: a new `Pool(this.#capacity, this.#maxEntity)` with
the default `Uint16Array` backing, keyed by the type; no-op on a type
already registered. -/
def World.register {Ty C : Type} [DecidableEq Ty] (w : World Ty C) (t : Ty) :
    World Ty C × Bool :=
  if (lookupPool w t).isSome then (w, false)
  else ({ w with pools := w.pools ++ [(t, Pool.init C w.capacity (w.capacity - 1) 65535)] }, true)

/-- Embedding of `World.hasComponent`: `this.#pools.get(type)?.has(entity) ?? false`. -/
def World.hasComponent {Ty C : Type} [DecidableEq Ty] (w : World Ty C)
    (e : Nat) (t : Ty) : Bool :=
  match lookupPool w t with
  | none => false
  | some p => p.hasNat e

/-- The body of the `for (const type of types)` loop of `World.any`:
skip a missing or empty pool, otherwise insert each of its keys into the
result set. -/
def anyStep {Ty C : Type} [DecidableEq Ty] (w : World Ty C)
    (acc : List Nat) (t : Ty) : List Nat :=
  match lookupPool w t with
  | none => acc
  | some p => if p.isEmpty then acc else p.keysList.foldl setAdd acc

/-- Embedding of `World.any`: union of the named stores in argument order, deduplicated
by the `Set`, spread into an array in insertion order. -/
def World.any {Ty C : Type} [DecidableEq Ty] (w : World Ty C)
    (types : List Ty) : List Nat :=
  if types.isEmpty then [] else types.foldl (anyStep w) []

/-- Embedding of `World.all`: returns `none` when the JS code would throw a
`TypeError` — that happens exactly on the single-type path when the type
is unregistered (`pool.keys()` with `pool === undefined`) and the world
has at least one registered store.  On the multi-type path, missing or
empty stores give `some []`; otherwise the resolved pools are sorted
ascending by size (a stable sort, as `Array.prototype.sort` is) and the
smallest store's dense list is filtered by membership in the rest. -/
def World.all {Ty C : Type} [DecidableEq Ty] (w : World Ty C)
    (types : List Ty) : Option (List Nat) :=
  if w.pools.isEmpty || types.isEmpty then some []
  else if types.length == 1 then
    match types with
    | [] => some []
    | t :: _ =>
      match lookupPool w t with
      | none => none
      | some p => some p.keysList
  else
    let ps := types.map (lookupPool w)
    if w.pools.isEmpty || ps.any (fun o => o.isNone || (o.map Pool.isEmpty).getD true) then
      some []
    else
      match List.insertionSort (fun a b => a.size ≤ b.size) (ps.filterMap id) with
      | [] => some []
      | smallest :: rest =>
          some (smallest.keysList.filter (fun e => rest.all (fun q => q.hasNat e)))

/-- Well-formedness of a world: positive capacity, live entities below
capacity and duplicate-free, and every registered pool
invariant-satisfying with the dimensions `register` gives it. -/
def World.WF {Ty C : Type} (w : World Ty C) : Prop :=
  1 ≤ w.capacity ∧
  (∀ e ∈ w.entities, e < w.capacity) ∧
  w.entities.Nodup ∧
  (∀ tp ∈ w.pools, tp.2.Inv ∧ tp.2.maxEntity = w.capacity - 1 ∧ tp.2.capacity = w.capacity)

instance worldWFDecidable {Ty C : Type} (w : World Ty C) : Decidable w.WF := by
  unfold World.WF
  infer_instance

/-- The dense entity list contributed by a named store: empty for an
unregistered type, the keys otherwise. -/
def resolvedKeys {Ty C : Type} [DecidableEq Ty] (w : World Ty C) (t : Ty) :
    List Nat :=
  match lookupPool w t with
  | none => []
  | some p => p.keysList

/-- Deduplication keeping the first occurrence of each element, in
first-encountered order: the observable content of a JS `Set` built by
repeated insertion and then spread. -/
def firstOccurrences (l : List Nat) : List Nat := l.foldl setAdd []

theorem any_eq_foldl {Ty C : Type} [DecidableEq Ty] (w : World Ty C)
    (types : List Ty) : World.any w types = types.foldl (anyStep w) [] := by
  cases types with
  | nil => rfl
  | cons t ts => rfl

theorem anyStep_eq {Ty C : Type} [DecidableEq Ty] (w : World Ty C)
    (acc : List Nat) (t : Ty) :
    anyStep w acc t = (resolvedKeys w t).foldl setAdd acc := by
  unfold anyStep resolvedKeys
  cases h : lookupPool w t with
  | none => rfl
  | some p =>
    simp only []
    split
    · next hemp =>
      have hz : p.size = 0 := by
        have h2 := hemp
        unfold Pool.isEmpty at h2
        simpa using h2
      rw [Pool.keysList, hz, List.take_zero]
      rfl
    · rfl

theorem foldl_anyStep_eq_flatMap {Ty C : Type} [DecidableEq Ty] (w : World Ty C)
    (types : List Ty) (acc : List Nat) :
    types.foldl (anyStep w) acc =
      (types.flatMap (resolvedKeys w)).foldl setAdd acc := by
  induction types generalizing acc with
  | nil => rfl
  | cons t ts ih =>
    rw [List.foldl_cons, List.flatMap_cons, List.foldl_append, anyStep_eq, ih]

theorem mem_setAdd (l : List Nat) (x e : Nat) :
    e ∈ setAdd l x ↔ e ∈ l ∨ e = x := by
  unfold setAdd
  split
  · next h =>
    constructor
    · exact Or.inl
    · rintro (h1 | rfl)
      · exact h1
      · exact h
  · simp

theorem nodup_setAdd (l : List Nat) (x : Nat) (h : l.Nodup) :
    (setAdd l x).Nodup := by
  unfold setAdd
  split
  · exact h
  · next hx => simp [List.nodup_append, h, hx]

theorem mem_foldl_setAdd (l : List Nat) (acc : List Nat) (e : Nat) :
    e ∈ l.foldl setAdd acc ↔ e ∈ acc ∨ e ∈ l := by
  induction l generalizing acc with
  | nil => simp
  | cons x xs ih =>
    rw [List.foldl_cons, ih, mem_setAdd]
    simp only [List.mem_cons]
    tauto

theorem nodup_foldl_setAdd (l : List Nat) (acc : List Nat) (h : acc.Nodup) :
    (l.foldl setAdd acc).Nodup := by
  induction l generalizing acc with
  | nil => exact h
  | cons x xs ih => exact ih _ (nodup_setAdd acc x h)

/-- The behaviour of `any`, as the claim states it: the union of the
named stores taken in argument order (missing stores contributing
nothing), each entity listed once in first-encountered order, and the
empty list for zero types. -/
def AnySpec {Ty C : Type} [DecidableEq Ty] (w : World Ty C)
    (types : List Ty) : Prop :=
  World.any w types = firstOccurrences (types.flatMap (resolvedKeys w)) ∧
  (World.any w types).Nodup ∧
  (∀ e, e ∈ World.any w types ↔ ∃ t ∈ types, e ∈ resolvedKeys w t) ∧
  (types = [] → World.any w types = [])

/-- C6: the query `any(...types)` returns exactly the union of the entities of the
named stores, iterated in argument order with missing or empty stores
skipped, each entity exactly once in first-encountered order; zero types
give the empty array.  `any` is total: no argument makes it throw. -/
theorem c6_any_union (Ty C : Type) [inst : DecidableEq Ty] (w : World Ty C)
    (types : List Ty) : AnySpec w types := by
  refine ⟨?_, ?_, ?_, ?_⟩
  · rw [any_eq_foldl, foldl_anyStep_eq_flatMap]
    rfl
  · rw [any_eq_foldl, foldl_anyStep_eq_flatMap]
    exact nodup_foldl_setAdd _ _ List.nodup_nil
  · intro e
    rw [any_eq_foldl, foldl_anyStep_eq_flatMap, mem_foldl_setAdd]
    simp [List.mem_flatMap]
  · rintro rfl
    rfl

theorem all_pools_empty {Ty C : Type} [DecidableEq Ty] (w : World Ty C)
    (types : List Ty) (h : w.pools.isEmpty = true) :
    World.all w types = some [] := by
  unfold World.all
  rw [if_pos (by simp [h])]

theorem all_guard_hit {Ty C : Type} [DecidableEq Ty] (w : World Ty C)
    (types : List Ty) (hpe : w.pools.isEmpty = false) (h2 : 2 ≤ types.length)
    (hany : (types.map (lookupPool w)).any
      (fun o => o.isNone || (o.map Pool.isEmpty).getD true) = true) :
    World.all w types = some [] := by
  unfold World.all
  rw [if_neg]
  · rw [if_neg]
    · simp only []
      rw [if_pos (by simp [hany])]
    · simp only [beq_iff_eq]
      omega
  · cases types with
    | nil => simp at h2
    | cons a l => simp [hpe]

theorem all_single_unregistered {Ty C : Type} [DecidableEq Ty] (w : World Ty C)
    (t : Ty) (hpe : w.pools.isEmpty = false) (hnone : lookupPool w t = none) :
    World.all w [t] = none := by
  unfold World.all
  rw [if_neg (by simp [hpe])]
  rw [if_pos (by simp)]
  simp [hnone]

/-- C2 counterexample: a world with one registered store (for type 0) and
`all` called with the single unregistered type 1.  The claim says the
unknown type contributes an empty set and the result is the empty array;
the code evaluates `[...pool.keys()]` with `pool === undefined` and
throws a `TypeError` (modelled as `none`). -/
theorem c2_counterexample :
    World.all (⟨[0], [], [(0, Pool.init Nat 2 1 65535)], 1, 2⟩ : World Nat Nat)
      [1] = none := by
  decide

/-- C2 (amended): an unknown type never makes `any` throw — it is
silently skipped; in `all` with two or more types an unknown type drives
the whole result to the empty array without an error; but `all` with
exactly one unknown type throws a `TypeError` unless the world has no
registered store at all (in which case the zero-pools guard returns the
empty array first). -/
theorem c2_unknown_type (Ty C : Type) [inst : DecidableEq Ty] (w : World Ty C)
    (t : Ty) (ts1 ts2 types : List Ty) (hnone : lookupPool w t = none) :
    World.any w (ts1 ++ t :: ts2) = World.any w (ts1 ++ ts2) ∧
    (2 ≤ types.length → t ∈ types → World.all w types = some []) ∧
    World.all w [t] = (if w.pools.isEmpty then some [] else none) := by
  refine ⟨?_, ?_, ?_⟩
  · rw [any_eq_foldl, any_eq_foldl, foldl_anyStep_eq_flatMap, foldl_anyStep_eq_flatMap]
    rw [List.flatMap_append, List.flatMap_append, List.flatMap_cons]
    have hrk : resolvedKeys w t = [] := by
      unfold resolvedKeys
      rw [hnone]
    rw [hrk, List.nil_append]
  · intro h2 hmem
    by_cases hpe : w.pools.isEmpty = true
    · exact all_pools_empty w types hpe
    · refine all_guard_hit w types (by simpa using hpe) h2 ?_
      rw [List.any_eq_true]
      refine ⟨lookupPool w t, List.mem_map.mpr ⟨t, hmem, rfl⟩, ?_⟩
      rw [hnone]
      rfl
  · by_cases hpe : w.pools.isEmpty = true
    · rw [if_pos hpe]
      exact all_pools_empty w [t] hpe
    · rw [if_neg hpe]
      exact all_single_unregistered w t (by simpa using hpe) hnone

theorem c2_unknown_type_witness :
    lookupPool (⟨[0], [], [(0, Pool.init Nat 2 1 65535)], 1, 2⟩ : World Nat Nat)
      5 = none ∧
    (World.any (⟨[0], [], [(0, Pool.init Nat 2 1 65535)], 1, 2⟩ : World Nat Nat)
        ([0] ++ 5 :: []) =
      World.any (⟨[0], [], [(0, Pool.init Nat 2 1 65535)], 1, 2⟩ : World Nat Nat)
        ([0] ++ []) ∧
     (2 ≤ ([0, 5] : List Nat).length → 5 ∈ ([0, 5] : List Nat) →
      World.all (⟨[0], [], [(0, Pool.init Nat 2 1 65535)], 1, 2⟩ : World Nat Nat)
        [0, 5] = some []) ∧
     World.all (⟨[0], [], [(0, Pool.init Nat 2 1 65535)], 1, 2⟩ : World Nat Nat)
        [5] =
       (if (⟨[0], [], [(0, Pool.init Nat 2 1 65535)], 1, 2⟩ :
          World Nat Nat).pools.isEmpty then some [] else none)) :=
  ⟨by decide,
   c2_unknown_type Nat Nat
     (⟨[0], [], [(0, Pool.init Nat 2 1 65535)], 1, 2⟩ : World Nat Nat)
     5 [0] [] [0, 5] (by decide)⟩

theorem find?_map_pools {Ty C : Type} [DecidableEq Ty] (pools : List (Ty × Pool C))
    (e : Nat) (t : Ty) :
    (pools.map (fun tp => (tp.1, (tp.2.deleteCore e).1))).find?
        (fun tp => decide (tp.1 = t)) =
      (pools.find? (fun tp => decide (tp.1 = t))).map
        (fun tp => (tp.1, (tp.2.deleteCore e).1)) := by
  induction pools with
  | nil => rfl
  | cons tp tps ih =>
    simp only [List.map_cons, List.find?_cons]
    by_cases h : tp.1 = t
    · simp [h]
    · simp [h, ih]

theorem lookupPool_destroy {Ty C : Type} [DecidableEq Ty] (w : World Ty C)
    (e : Nat) (he : e ∈ w.entities) (t : Ty) :
    lookupPool ((w.destroy e).1) t =
      (lookupPool w t).map (fun p => (p.deleteCore e).1) := by
  unfold World.destroy
  rw [if_pos he]
  unfold lookupPool
  simp only []
  rw [find?_map_pools w.pools e t]
  cases h : w.pools.find? (fun tp => decide (tp.1 = t)) with
  | none => rfl
  | some tp => rfl

theorem mem_of_lookupPool {Ty C : Type} [DecidableEq Ty] {w : World Ty C}
    {t : Ty} {p : Pool C} (h : lookupPool w t = some p) :
    ∃ tp ∈ w.pools, tp.2 = p := by
  unfold lookupPool at h
  cases hf : w.pools.find? (fun tp => decide (tp.1 = t)) with
  | none => rw [hf] at h; simp at h
  | some tp =>
    rw [hf] at h
    simp only [Option.map_some'] at h
    exact ⟨tp, List.mem_of_find?_eq_some hf, by injection h⟩

theorem pool_inv_of_lookup {Ty C : Type} [DecidableEq Ty] {w : World Ty C}
    {t : Ty} {p : Pool C} (hwf : w.WF) (h : lookupPool w t = some p) : p.Inv := by
  obtain ⟨tp, hmem, heq⟩ := mem_of_lookupPool h
  exact heq ▸ (hwf.2.2.2 tp hmem).1

/-- The behaviour of `destroy` and of the spawn that follows it: a live
entity is removed from every store, removed from the live set, pushed
onto the recycle stack, destroy reports true, and the next spawn pops
that id back off the stack (LIFO recycling); a non-live entity leaves
the world untouched and destroy reports false. -/
def DestroySpec {Ty C : Type} [DecidableEq Ty] (w : World Ty C) (e : Nat) : Prop :=
  (e ∈ w.entities →
    (w.destroy e).2 = true ∧
    (∀ t : Ty, World.hasComponent (w.destroy e).1 e t = false) ∧
    e ∉ (w.destroy e).1.entities ∧
    (w.destroy e).1.recycledEntities = w.recycledEntities ++ [e] ∧
    (∃ w2, ((w.destroy e).1).spawn = some (w2, e))) ∧
  (e ∉ w.entities → w.destroy e = (w, false))

/-- C8: on a well-formed world, `destroy(e)` of a live entity removes `e`
from every registered component store (so `hasComponent(e, t)` is false
for every type afterwards), removes it from the live set, pushes it onto
the recycle stack and returns true, and the immediately following spawn
reuses id `e`; `destroy` of a non-live entity returns false and changes
nothing. -/
theorem c8_destroy_spawn (Ty C : Type) [inst : DecidableEq Ty] (w : World Ty C)
    (e : Nat) (hwf : w.WF) : DestroySpec w e := by
  constructor
  · intro he
    refine ⟨?_, ?_, ?_, ?_, ?_⟩
    · unfold World.destroy
      rw [if_pos he]
    · intro t
      unfold World.hasComponent
      rw [lookupPool_destroy w e he t]
      cases h : lookupPool w t with
      | none => rfl
      | some p =>
        show ((p.deleteCore e).1).hasNat e = false
        exact deleteCore_hasNat_self (pool_inv_of_lookup hwf h) e
    · unfold World.destroy
      rw [if_pos he]
      exact (hwf.2.2.1).not_mem_erase
    · unfold World.destroy
      rw [if_pos he]
    · have hgl : ((w.destroy e).1).recycledEntities.getLast? = some e := by
        unfold World.destroy
        rw [if_pos he]
        simp [List.getLast?_concat]
      refine ⟨{ (w.destroy e).1 with
          recycledEntities := ((w.destroy e).1).recycledEntities.dropLast
          entities := setAdd ((w.destroy e).1).entities e }, ?_⟩
      unfold World.spawn
      rw [hgl]
  · intro he
    unfold World.destroy
    rw [if_neg he]

theorem c8_destroy_spawn_witness :
    (⟨[0, 1, 2], [], [(0, ((Pool.init Nat 4 3 65535).addCore 1 (some 42)).1)], 3, 4⟩ :
      World Nat Nat).WF ∧
    ((World.init Nat Nat 4).spawn = some (⟨[0], [], [], 1, 4⟩, 0) ∧
     (⟨[0], [], [], 1, 4⟩ : World Nat Nat).spawn = some (⟨[0, 1], [], [], 2, 4⟩, 1) ∧
     (⟨[0, 1], [], [], 2, 4⟩ : World Nat Nat).spawn = some (⟨[0, 1, 2], [], [], 3, 4⟩, 2)) ∧
    DestroySpec
      (⟨[0, 1, 2], [], [(0, ((Pool.init Nat 4 3 65535).addCore 1 (some 42)).1)], 3, 4⟩ :
        World Nat Nat) 1 :=
  ⟨by decide, by decide,
   c8_destroy_spawn Nat Nat
     (⟨[0, 1, 2], [], [(0, ((Pool.init Nat 4 3 65535).addCore 1 (some 42)).1)], 3, 4⟩ :
       World Nat Nat) 1 (by decide)⟩

/-- The JS predicate `!pool || pool.isEmpty()` applied to the store
resolved for a type. -/
def missingOrEmptyB {Ty C : Type} [DecidableEq Ty] (w : World Ty C) (t : Ty) :
    Bool :=
  match lookupPool w t with
  | none => true
  | some p => p.isEmpty

theorem pred_eq_missingOrEmptyB {Ty C : Type} [DecidableEq Ty] (w : World Ty C)
    (t : Ty) :
    ((lookupPool w t).isNone || (((lookupPool w t).map Pool.isEmpty).getD true)) =
      missingOrEmptyB w t := by
  unfold missingOrEmptyB
  cases h : lookupPool w t <;> rfl

theorem missingOrEmptyB_false_iff {Ty C : Type} [DecidableEq Ty]
    (w : World Ty C) (t : Ty) :
    missingOrEmptyB w t = false ↔
      ∃ p, lookupPool w t = some p ∧ p.isEmpty = false := by
  unfold missingOrEmptyB
  cases h : lookupPool w t with
  | none => simp
  | some p => simp

theorem filterMap_id_length {α : Type} (l : List (Option α))
    (h : ∀ o ∈ l, o.isSome = true) : (l.filterMap id).length = l.length := by
  induction l with
  | nil => rfl
  | cons o os ih =>
    cases o with
    | none => simp at h
    | some a =>
      rw [List.filterMap_cons]
      simp only [id]
      rw [List.length_cons, List.length_cons, ih]
      intro o ho
      exact h o (List.mem_cons_of_mem _ ho)

theorem all_multi_eq {Ty C : Type} [DecidableEq Ty] (w : World Ty C)
    (types : List Ty) (hpe : w.pools.isEmpty = false) (h2 : 2 ≤ types.length)
    (hany : (types.map (lookupPool w)).any
      (fun o => o.isNone || (o.map Pool.isEmpty).getD true) = false) :
    World.all w types =
      match List.insertionSort (fun a b => a.size ≤ b.size)
          ((types.map (lookupPool w)).filterMap id) with
      | [] => some []
      | smallest :: rest =>
          some (smallest.keysList.filter (fun e => rest.all (fun q => q.hasNat e))) := by
  unfold World.all
  rw [if_neg]
  · rw [if_neg]
    · simp only []
      rw [if_neg (by simp [hany, hpe])]
    · simp only [beq_iff_eq]
      omega
  · cases types with
    | nil => simp at h2
    | cons a l => simp [hpe]

/-- The behaviour of `all` on two or more types: a missing or empty store
forces the empty result; otherwise the resolved stores are sorted
ascending by size, the head of the sorted list is a store of minimal
size, the result filters that store's dense list by membership in the
remaining stores (hence is a sublist of the smallest store's dense list,
in its dense order), and an entity is in the result exactly when every
named store contains it. -/
def AllSpec {Ty C : Type} [DecidableEq Ty] (w : World Ty C)
    (types : List Ty) : Prop :=
  ((∃ t ∈ types, missingOrEmptyB w t = true) → World.all w types = some []) ∧
  ((∀ t ∈ types, missingOrEmptyB w t = false) →
    ∃ sm rest,
      List.insertionSort (fun a b => a.size ≤ b.size)
        ((types.map (lookupPool w)).filterMap id) = sm :: rest ∧
      (∀ q ∈ (types.map (lookupPool w)).filterMap id, sm.size ≤ q.size) ∧
      World.all w types =
        some (sm.keysList.filter (fun e => rest.all (fun q => q.hasNat e))) ∧
      (sm.keysList.filter (fun e => rest.all (fun q => q.hasNat e))).Sublist
        sm.keysList ∧
      (∀ e, e ∈ sm.keysList.filter (fun e => rest.all (fun q => q.hasNat e)) ↔
        ∀ t ∈ types, World.hasComponent w e t = true))

/-- C5: on a well-formed world, `all(...types)` with two or more types
returns the empty array when any named store is missing or empty, and
otherwise returns exactly the entities present in every named store, in
the dense order of a smallest resolved store (the head of the
size-sorted store list), materialized as an array. -/
theorem c5_all_intersection (Ty C : Type) [inst : DecidableEq Ty]
    (w : World Ty C) (types : List Ty) (hwf : w.WF) (h2 : 2 ≤ types.length) :
    AllSpec w types := by
  constructor
  · rintro ⟨t, hmem, hmo⟩
    by_cases hpe : w.pools.isEmpty = true
    · exact all_pools_empty w types hpe
    · refine all_guard_hit w types (by simpa using hpe) h2 ?_
      rw [List.any_eq_true]
      refine ⟨lookupPool w t, List.mem_map.mpr ⟨t, hmem, rfl⟩, ?_⟩
      rw [pred_eq_missingOrEmptyB]
      exact hmo
  · intro hall
    have hne : types ≠ [] := by
      intro h
      subst h
      simp at h2
    obtain ⟨t0, ht0⟩ : ∃ t, t ∈ types := by
      cases types with
      | nil => exact absurd rfl hne
      | cons a l => exact ⟨a, List.mem_cons_self a l⟩
    obtain ⟨p0, hl0, _⟩ := (missingOrEmptyB_false_iff w t0).mp (hall t0 ht0)
    have hpe : w.pools.isEmpty = false := by
      obtain ⟨tp, htp, _⟩ := mem_of_lookupPool hl0
      cases hw : w.pools with
      | nil => rw [hw] at htp; simp at htp
      | cons a l => rfl
    have hany : (types.map (lookupPool w)).any
        (fun o => o.isNone || (o.map Pool.isEmpty).getD true) = false := by
      rw [List.any_eq_false]
      intro o ho
      obtain ⟨t, ht, rfl⟩ := List.mem_map.mp ho
      rw [pred_eq_missingOrEmptyB]
      simp [hall t ht]
    have hsome : ∀ o ∈ types.map (lookupPool w), o.isSome = true := by
      intro o ho
      obtain ⟨t, ht, rfl⟩ := List.mem_map.mp ho
      obtain ⟨p, hp, _⟩ := (missingOrEmptyB_false_iff w t).mp (hall t ht)
      rw [hp]
      rfl
    have hqslen : ((types.map (lookupPool w)).filterMap id).length = types.length := by
      rw [filterMap_id_length _ hsome, List.length_map]
    have hmemqs : ∀ q ∈ (types.map (lookupPool w)).filterMap id,
        ∃ t ∈ types, lookupPool w t = some q := by
      intro q hq
      rw [List.mem_filterMap] at hq
      obtain ⟨o, ho, hid⟩ := hq
      obtain ⟨t, ht, rfl⟩ := List.mem_map.mp ho
      exact ⟨t, ht, by simpa using hid⟩
    have hqinv : ∀ q ∈ (types.map (lookupPool w)).filterMap id, q.Inv := by
      intro q hq
      obtain ⟨t, _, hl⟩ := hmemqs q hq
      exact pool_inv_of_lookup hwf hl
    haveI htot : IsTotal (Pool C) (fun a b => a.size ≤ b.size) :=
      ⟨fun a b => Nat.le_total a.size b.size⟩
    haveI htrans : IsTrans (Pool C) (fun a b => a.size ≤ b.size) :=
      ⟨fun a b c hab hbc => Nat.le_trans hab hbc⟩
    have hperm := List.perm_insertionSort (fun a b : Pool C => a.size ≤ b.size)
      ((types.map (lookupPool w)).filterMap id)
    have hsorted := List.sorted_insertionSort (fun a b : Pool C => a.size ≤ b.size)
      ((types.map (lookupPool w)).filterMap id)
    cases hsort : List.insertionSort (fun a b : Pool C => a.size ≤ b.size)
        ((types.map (lookupPool w)).filterMap id) with
    | nil =>
      exfalso
      have := hperm.length_eq
      rw [hsort] at this
      rw [hqslen] at this
      simp at this
      omega
    | cons sm rest =>
      rw [hsort] at hsorted hperm
      have hsm_qs : sm ∈ (types.map (lookupPool w)).filterMap id :=
        hperm.mem_iff.mp (List.mem_cons_self sm rest)
      have hrest_qs : ∀ q ∈ rest, q ∈ (types.map (lookupPool w)).filterMap id :=
        fun q hq => hperm.mem_iff.mp (List.mem_cons_of_mem sm hq)
      have hmin : ∀ q ∈ (types.map (lookupPool w)).filterMap id, sm.size ≤ q.size := by
        intro q hq
        have hq' : q ∈ sm :: rest := hperm.mem_iff.mpr hq
        rcases List.mem_cons.mp hq' with rfl | hq''
        · exact Nat.le_refl _
        · exact List.rel_of_sorted_cons hsorted q hq''
      refine ⟨sm, rest, rfl, hmin, ?_, List.filter_sublist _, ?_⟩
      · rw [all_multi_eq w types hpe h2 hany, hsort]
      · intro e
        rw [List.mem_filter]
        constructor
        · rintro ⟨hesm, hrest⟩
          intro t ht
          obtain ⟨p, hp, _⟩ := (missingOrEmptyB_false_iff w t).mp (hall t ht)
          unfold World.hasComponent
          rw [hp]
          have hpqs : p ∈ (types.map (lookupPool w)).filterMap id := by
            rw [List.mem_filterMap]
            exact ⟨some p, List.mem_map.mpr ⟨t, ht, hp⟩, rfl⟩
          have hpsorted : p ∈ sm :: rest := hperm.mem_iff.mpr hpqs
          rcases List.mem_cons.mp hpsorted with rfl | hprest
          · exact (mem_keysList_iff (hqinv p hpqs) e).mp hesm
          · rw [List.all_eq_true] at hrest
            simpa using hrest p hprest
        · intro hcomp
          have hesm : e ∈ sm.keysList := by
            obtain ⟨t0', ht0', hl0'⟩ := hmemqs sm hsm_qs
            have hc := hcomp t0' ht0'
            unfold World.hasComponent at hc
            rw [hl0'] at hc
            exact (mem_keysList_iff (hqinv sm hsm_qs) e).mpr hc
          refine ⟨hesm, ?_⟩
          rw [List.all_eq_true]
          intro q hq
          obtain ⟨t1, ht1, hl1⟩ := hmemqs q (hrest_qs q hq)
          have hc := hcomp t1 ht1
          unfold World.hasComponent at hc
          rw [hl1] at hc
          simpa using hc

/-- Store A of the spec example, holding entities 1, 2, 3. -/
def poolA : Pool Nat :=
  ((((Pool.init Nat 6 5 65535).addCore 1 (some 10)).1.addCore 2 (some 20)).1.addCore
    3 (some 30)).1

/-- Store B of the spec example, holding entities 2, 3, 4. -/
def poolB : Pool Nat :=
  ((((Pool.init Nat 6 5 65535).addCore 2 (some 21)).1.addCore 3 (some 31)).1.addCore
    4 (some 41)).1

/-- A world with stores A and B registered under types 0 and 1. -/
def wExAB : World Nat Nat := ⟨[1, 2, 3, 4], [], [(0, poolA), (1, poolB)], 5, 6⟩

theorem c5_all_intersection_witness :
    wExAB.WF ∧ 2 ≤ ([0, 1] : List Nat).length ∧ AllSpec wExAB [0, 1] ∧
      World.all wExAB [0, 1] = some [2, 3] :=
  ⟨by decide, by decide,
   c5_all_intersection Nat Nat wExAB [0, 1] (by decide) (by decide),
   by decide⟩

end SparseSetECS
